import Mathlib

/-!
Verification of the alternate-file resolution core of go-zed-test-toggle
(`main.go`): project-convention detection (IsGem / IsSpec), test-file
classification, and the source-to-test / test-to-source resolvers.

Modelling choices:
* A path is a `List Char` (`Str`); the filesystem is the list of paths of
  the files that exist (`FS`); `fileExists` is membership.
* Go's `strings.Contains`, `strings.HasSuffix`, `strings.Replace(s,old,new,1)`
  are modelled by `containsSub`, `hasSuffix`, `replaceFirst`.
* `filepath.Join` is modelled by `goJoin` for slash-clean inputs that contain
  no "." or ".." segments: on such inputs Go's `Clean` only collapses repeated
  separators, which `collapseSlashes` performs.
* `filepath.Glob` appears with three pattern shapes: a metacharacter-free
  pattern (plain existence), `root/*.gemspec` (one `*` component), and
  `root/**/spec/spec_helper.rb`.  Go's glob has no recursive `**`: each `*`
  matches a single non-separator run, so `**` matches exactly one path
  component.  Roots are assumed free of glob metacharacters.
* The three regular expressions are a closed set (`TestRegex`); their
  `MatchString` and `ReplaceAllString(s, ".rb")` are modelled directly.
  Since every pattern is `$`-anchored a match always extends to the end of
  the string, so `ReplaceAllString` replaces at most one (leftmost) match.
-/

namespace ZedToggle

/-- Paths are lists of characters. -/
abbrev Str := List Char

/-- The filesystem: the list of (joined) paths of the files that exist. -/
abbrev FS := List Str

/-- Coerce a string literal to the character-list representation. -/
def str (s : String) : Str := s.data

/-- Membership of a character in a string (Go `strings.ContainsRune`-style,
used for path-segment checks in the glob model). -/
def containsChar : Str → Char → Bool
  | [], _ => false
  | c :: t, x => c = x || containsChar t x

/-- Go `strings.Contains s pat`. -/
def containsSub : Str → Str → Bool
  | [], pat => pat.isPrefixOf ([] : Str)
  | c :: t, pat => pat.isPrefixOf (c :: t) || containsSub t pat

/-- Go `strings.HasSuffix s pat`. -/
def hasSuffix (s pat : Str) : Bool := pat.isSuffixOf s

/-- Go `strings.Replace s old new 1`: replace the first occurrence of `old`
(the empty `old` matches at the start of the string). -/
def replaceFirst : Str → Str → Str → Str
  | [], old, new => if old.isPrefixOf ([] : Str) then new else []
  | c :: t, old, new =>
    if old.isPrefixOf (c :: t) then new ++ (c :: t).drop old.length
    else c :: replaceFirst t old new

/-- Collapse runs of repeated '/' (the only effect of Go `filepath.Clean`
on the slash-clean, dot-free paths this program builds). -/
def collapseSlashes : Str → Str
  | [] => []
  | [c] => [c]
  | c :: d :: t =>
    if c = '/' && d = '/' then collapseSlashes (d :: t)
    else c :: collapseSlashes (d :: t)

/-- Go `filepath.Join a b` for slash-clean inputs without "." or ".."
segments (empty components are skipped; the result is Cleaned). -/
def goJoin (a b : Str) : Str :=
  if a = [] then (if b = [] then [] else collapseSlashes b)
  else if b = [] then collapseSlashes a
  else collapseSlashes (a ++ '/' :: b)

/-- Go `fileExists` (`os.Stat` succeeding): the path is in the filesystem. -/
def fileExists (fs : FS) (path : Str) : Bool := fs.any (fun f => f == path)

/-- Strip `root ++ "/"` from a path (how a glob pattern rooted at `root`
relates to a filesystem entry); a glob under the empty root sees the whole
path. -/
def relToRoot (root f : Str) : Option Str :=
  if root = [] then some f
  else if (root ++ ['/']).isPrefixOf f then some (f.drop (root.length + 1))
  else none

/-- Character class `[a-zA-Z0-9_]` of the `test_` regular expression. -/
def isWordChar (c : Char) : Bool := c.isAlpha || c.isDigit || c = '_'

/-- Does `s` consist of word characters followed by the literal ".rb"
(the `[a-zA-Z0-9_]*\.rb` tail of the `test_` pattern, consuming `s`
entirely)? -/
def wordThenRb : Str → Bool
  | [] => false
  | c :: t => (c = '.' && t = ['r', 'b']) || (isWordChar c && wordThenRb t)

/-- Does the pattern `test_[a-zA-Z0-9_]*\.rb$` match starting at the first
character of `s` (and therefore extend to the end of `s`)? -/
def matchHere (s : Str) : Bool :=
  (str "test_").isPrefixOf s && wordThenRb (s.drop 5)

/-- Go `MatchString` of `test_[a-zA-Z0-9_]*\.rb$`: a match starts at some
position of `s`. -/
def matchesTestUnderscore : Str → Bool
  | [] => false
  | c :: t => matchHere (c :: t) || matchesTestUnderscore t

/-- Go `ReplaceAllString s ".rb"` for `test_[a-zA-Z0-9_]*\.rb$`: the
leftmost match (which necessarily extends to the end of `s`) is replaced
by ".rb"; without a match `s` is returned unchanged. -/
def replaceTestUnderscore : Str → Str
  | [] => []
  | c :: t => if matchHere (c :: t) then str ".rb" else c :: replaceTestUnderscore t

/-- The closed set of test-file regular expressions of `TestRegexes`. -/
inductive TestRegex where
  | specSuffix
  | testSuffix
  | testUnderscore
deriving DecidableEq

/-- Go `regexp.MatchString` for each pattern (`_spec\.rb$`, `_test\.rb$`,
`test_[a-zA-Z0-9_]*\.rb$`). -/
def TestRegex.matchString : TestRegex → Str → Bool
  | .specSuffix, s => hasSuffix s (str "_spec.rb")
  | .testSuffix, s => hasSuffix s (str "_test.rb")
  | .testUnderscore, s => matchesTestUnderscore s

/-- Go `ReplaceAllString s ".rb"` for each pattern; the `$`-anchored
fixed-length suffix patterns have at most one match, the final 8
characters. -/
def TestRegex.replaceAllWithRb : TestRegex → Str → Str
  | .specSuffix, s =>
    if hasSuffix s (str "_spec.rb") then s.take (s.length - 8) ++ str ".rb" else s
  | .testSuffix, s =>
    if hasSuffix s (str "_test.rb") then s.take (s.length - 8) ++ str ".rb" else s
  | .testUnderscore, s => replaceTestUnderscore s

/-- The `Project` struct: its only field is the root path. -/
structure Project where
  Root : Str
deriving DecidableEq

/-- `NewProject`: strip one trailing slash from the root. -/
def NewProject (root : Str) : Project :=
  ⟨if hasSuffix root (str "/") then root.take (root.length - 1) else root⟩

/-- `Project.IsGem`: the glob `root/*.gemspec` has a match, i.e. some
existing file is `root/<name>` with `<name>` a single component ending in
".gemspec". -/
def Project.IsGem (fs : FS) (p : Project) : Bool :=
  fs.any fun f =>
    match relToRoot p.Root f with
    | some name => !containsChar name '/' && hasSuffix name (str ".gemspec")
    | none => false

/-- `Project.IsSpec`: one of the three glob clues matches.  The first two
patterns are metacharacter-free (plain existence); in the third,
`root/**/spec/spec_helper.rb`, Go's glob treats `**` as a single-component
wildcard, so it matches `root/<dir>/spec/spec_helper.rb` for exactly one
directory level. -/
def Project.IsSpec (fs : FS) (p : Project) : Bool :=
  fileExists fs (goJoin p.Root (str "spec/spec_helper.rb")) ||
  fileExists fs (goJoin p.Root (str ".rspec")) ||
  fs.any fun f =>
    match relToRoot p.Root f with
    | some rest =>
      hasSuffix rest (str "/spec/spec_helper.rb") &&
      (let d := rest.take (rest.length - (str "/spec/spec_helper.rb").length)
       !d.isEmpty && !containsChar d '/')
    | none => false

/-- `Project.SrcPaths`. -/
def Project.SrcPaths (fs : FS) (p : Project) : List Str :=
  if p.IsGem fs then [str "lib", []] else [str "app", str "lib"]

/-- `Project.TestAnchor`. -/
def Project.TestAnchor (fs : FS) (p : Project) : Str :=
  if p.IsSpec fs then str "spec" else str "test"

/-- `Project.TestPaths`. -/
def Project.TestPaths (fs : FS) (p : Project) : List Str :=
  [p.TestAnchor fs, goJoin (p.TestAnchor fs) (str "lib")]

/-- `Project.TestRegexes`. -/
def Project.TestRegexes (fs : FS) (p : Project) : List TestRegex :=
  if p.IsSpec fs then [.specSuffix] else [.testSuffix, .testUnderscore]

/-- `Project.TestSuffix`. -/
def Project.TestSuffix (fs : FS) (p : Project) : Str :=
  if p.IsSpec fs then str "_spec.rb" else str "_test.rb"

/-- `Project.Testify`: replace the first ".rb" with the test suffix. -/
def Project.Testify (fs : FS) (p : Project) (path : Str) : Str :=
  replaceFirst path (str ".rb") (p.TestSuffix fs)

/-- `SourceFile.IsTestFile` (the `SourceFile` struct is flattened into the
`filename` argument). -/
def IsTestFile (fs : FS) (p : Project) (filename : Str) : Bool :=
  (p.TestRegexes fs).any fun r => r.matchString filename

/-- `SourceFile.IsController`. -/
def IsController (filename : Str) : Bool :=
  containsSub filename (str "app/controllers/") &&
  hasSuffix filename (str "_controller.rb")

/-- `SourceFile.IsRequestSpec`. -/
def IsRequestSpec (filename : Str) : Bool :=
  containsSub filename (str "spec/requests/") &&
  hasSuffix filename (str "_controller_spec.rb")

/-- The candidate built by the controller special case of
`findAlternateTest`. -/
def controllerSpecialCandidate (filename : Str) : Str :=
  replaceFirst (replaceFirst filename (str "app/controllers/") (str "spec/requests/"))
    (str "_controller.rb") (str "_controller_spec.rb")

/-- The candidate built by the request-spec special case of
`findAlternateSrc`. -/
def requestSpecialCandidate (filename : Str) : Str :=
  replaceFirst (replaceFirst filename (str "spec/requests/") (str "app/controllers/"))
    (str "_controller_spec.rb") (str "_controller.rb")

/-- The candidate built by one iteration of the general loop of
`findAlternateSrc`, for a fixed (srcPath, testPath, regex) triple. -/
def srcCandidate (filename srcPath testPath : Str) (r : TestRegex) : Str :=
  r.replaceAllWithRb (replaceFirst filename testPath srcPath)

/-- Innermost loop of `findAlternateSrc` (over `testRegexes`). -/
def srcLoopRegexes (fs : FS) (p : Project) (filename srcPath testPath : Str) :
    List TestRegex → Option Str
  | [] => none
  | r :: rest =>
    let target := goJoin p.Root (srcCandidate filename srcPath testPath r)
    if fileExists fs target then some target
    else srcLoopRegexes fs p filename srcPath testPath rest

/-- Middle loop of `findAlternateSrc` (over `testPaths`). -/
def srcLoopTestPaths (fs : FS) (p : Project) (filename srcPath : Str) :
    List Str → Option Str
  | [] => none
  | tp :: rest =>
    match srcLoopRegexes fs p filename srcPath tp (p.TestRegexes fs) with
    | some t => some t
    | none => srcLoopTestPaths fs p filename srcPath rest

/-- Outer loop of `findAlternateSrc` (over `srcPaths`). -/
def srcLoopSrcPaths (fs : FS) (p : Project) (filename : Str) :
    List Str → Option Str
  | [] => none
  | sp :: rest =>
    match srcLoopTestPaths fs p filename sp (p.TestPaths fs) with
    | some t => some t
    | none => srcLoopSrcPaths fs p filename rest

/-- `SourceFile.findAlternateSrc`: the request-spec special case, then the
(srcPaths, testPaths, testRegexes) nested loop; empty string when nothing
exists. -/
def findAlternateSrc (fs : FS) (p : Project) (filename : Str) : Str :=
  let fromSpecial : Option Str :=
    if IsRequestSpec filename then
      let target := goJoin p.Root (requestSpecialCandidate filename)
      if fileExists fs target then some target else none
    else none
  match fromSpecial with
  | some t => t
  | none =>
    match srcLoopSrcPaths fs p filename (p.SrcPaths fs) with
    | some t => t
    | none => []

/-- The candidate built by one iteration of the general loop of
`findAlternateTest`, for a fixed (testPath, srcPath) pair: prefix with the
test path when the source path is empty, first-occurrence substitution
otherwise, then `Testify`. -/
def testCandidate (fs : FS) (p : Project) (filename testPath srcPath : Str) : Str :=
  Project.Testify fs p
    (if srcPath = [] then goJoin testPath filename
     else replaceFirst filename srcPath testPath)

/-- Inner loop of `findAlternateTest` (over `srcPaths`). -/
def testLoopSrcPaths (fs : FS) (p : Project) (filename testPath : Str) :
    List Str → Option Str
  | [] => none
  | sp :: rest =>
    let target := goJoin p.Root (testCandidate fs p filename testPath sp)
    if fileExists fs target then some target
    else testLoopSrcPaths fs p filename testPath rest

/-- Outer loop of `findAlternateTest` (over `testPaths`). -/
def testLoopTestPaths (fs : FS) (p : Project) (filename : Str) :
    List Str → Option Str
  | [] => none
  | tp :: rest =>
    match testLoopSrcPaths fs p filename tp (p.SrcPaths fs) with
    | some t => some t
    | none => testLoopTestPaths fs p filename rest

/-- `SourceFile.findAlternateTest`: the controller special case, then the
(testPaths, srcPaths) nested loop; empty string when nothing exists. -/
def findAlternateTest (fs : FS) (p : Project) (filename : Str) : Str :=
  let fromSpecial : Option Str :=
    if IsController filename then
      let target := goJoin p.Root (controllerSpecialCandidate filename)
      if fileExists fs target then some target else none
    else none
  match fromSpecial with
  | some t => t
  | none =>
    match testLoopTestPaths fs p filename (p.TestPaths fs) with
    | some t => t
    | none => []

/-- `SourceFile.AlternateFile`. -/
def AlternateFile (fs : FS) (p : Project) (filename : Str) : Str :=
  if IsTestFile fs p filename then findAlternateSrc fs p filename
  else findAlternateTest fs p filename

/-- The final path segment (everything after the last '/'); used in
statements about where the regular expressions can match. -/
def baseName : Str → Str
  | [] => []
  | c :: t => if containsChar (c :: t) '/' then baseName t else c :: t

/-- The targets probed by the general rule of `findAlternateTest`, in
probe order: `testPaths` in the outer loop, `srcPaths` in the inner
loop. -/
def allTestTargets (fs : FS) (p : Project) (filename : Str) : List Str :=
  (p.TestPaths fs).flatMap fun tp =>
    (p.SrcPaths fs).map fun sp => goJoin p.Root (testCandidate fs p filename tp sp)

/-- The targets probed by the general rule of `findAlternateSrc`, in
probe order: `srcPaths` outer, `testPaths` middle, `testRegexes` inner. -/
def allSrcTargets (fs : FS) (p : Project) (filename : Str) : List Str :=
  (p.SrcPaths fs).flatMap fun sp =>
    (p.TestPaths fs).flatMap fun tp =>
      (p.TestRegexes fs).map fun r => goJoin p.Root (srcCandidate filename sp tp r)

/-! Helper lemmas. -/

/-- A target exists iff it is one of the filesystem's files. -/
theorem fileExists_iff_mem (fs : FS) (t : Str) : fileExists fs t = true ↔ t ∈ fs := by
  simp [fileExists, List.any_eq_true]

/-- `containsChar` distributes over append. -/
theorem containsChar_append (a b : Str) (x : Char) :
    containsChar (a ++ b) x = (containsChar a x || containsChar b x) := by
  induction a with
  | nil => simp [containsChar]
  | cons c t ih => simp [containsChar, ih, Bool.or_assoc]

/-- A `[a-zA-Z0-9_]*\.rb`-shaped tail contains no separator. -/
theorem wordThenRb_no_slash (s : Str) (h : wordThenRb s = true) :
    containsChar s '/' = false := by
  induction s with
  | nil => rfl
  | cons c t ih =>
    unfold wordThenRb at h
    rcases Bool.or_eq_true_iff.mp h with h1 | h2
    · rcases Bool.and_eq_true_iff.mp h1 with ⟨hc, ht⟩
      have hc' : c = '.' := by exact_mod_cast of_decide_eq_true hc
      have ht' : t = ['r', 'b'] := by exact_mod_cast of_decide_eq_true ht
      subst hc'; rw [ht']; decide
    · rcases Bool.and_eq_true_iff.mp h2 with ⟨hw, ht⟩
      have hc : (c = '/') = False := by
        by_contra hne
        have : c = '/' := by
          rcases Classical.em (c = '/') with h | h
          · exact h
          · exact absurd (eq_false h) hne
        subst this
        exact absurd hw (by decide)
      simp [containsChar, ih ht, hc]

/-- A match of `test_[a-zA-Z0-9_]*\.rb$` contains no separator (so a match
always lies inside the final path segment). -/
theorem matchHere_no_slash (s : Str) (h : matchHere s = true) :
    containsChar s '/' = false := by
  unfold matchHere at h
  rcases Bool.and_eq_true_iff.mp h with ⟨hp, hw⟩
  rcases List.isPrefixOf_iff_prefix.mp hp with ⟨rest, hr⟩
  subst hr
  have hdrop : ((str "test_") ++ rest).drop 5 = rest := List.drop_left (str "test_") rest
  rw [hdrop] at hw
  rw [containsChar_append]
  have h1 : containsChar (str "test_") '/' = false := by decide
  rw [h1, wordThenRb_no_slash rest hw]
  rfl

/-- The `test_` pattern matches a path iff it matches its final segment. -/
theorem matchesTestUnderscore_baseName (s : Str) :
    matchesTestUnderscore s = matchesTestUnderscore (baseName s) := by
  induction s with
  | nil => rfl
  | cons c t ih =>
    by_cases hs : containsChar (c :: t) '/' = true
    · have hm : matchHere (c :: t) = false := by
        cases hmm : matchHere (c :: t) with
        | false => rfl
        | true => rw [matchHere_no_slash _ hmm] at hs; exact absurd hs (by decide)
      unfold baseName
      rw [if_pos hs, ← ih]
      have hstep : matchesTestUnderscore (c :: t) =
          (matchHere (c :: t) || matchesTestUnderscore t) := rfl
      rw [hstep, hm, Bool.false_or]
    · unfold baseName
      rw [if_neg hs]

/-- `replaceTestUnderscore` preserves the presence of a separator (the
replaced region never contains one). -/
theorem replaceTestUnderscore_slash (s : Str) (h : containsChar s '/' = true) :
    containsChar (replaceTestUnderscore s) '/' = true := by
  induction s with
  | nil => exact absurd h (by decide)
  | cons c t ih =>
    have hm : matchHere (c :: t) = false := by
      cases hmm : matchHere (c :: t) with
      | false => rfl
      | true => rw [matchHere_no_slash _ hmm] at h; exact absurd h (by decide)
    unfold replaceTestUnderscore
    rw [hm]
    simp only [Bool.false_eq_true, if_false]
    unfold containsChar at h ⊢
    rcases Bool.or_eq_true_iff.mp h with h1 | h2
    · rw [h1]; rfl
    · rw [ih h2, Bool.or_true]

/-- Equation of `replaceTestUnderscore` at a cons cell. -/
theorem replaceTestUnderscore_cons (c : Char) (t : Str) :
    replaceTestUnderscore (c :: t) =
      (if matchHere (c :: t) = true then str ".rb" else c :: replaceTestUnderscore t) := rfl

/-- Equation of `baseName` at a cons cell. -/
theorem baseName_cons (c : Char) (t : Str) :
    baseName (c :: t) =
      (if containsChar (c :: t) '/' = true then baseName t else c :: t) := rfl

/-- If the final segment of `s` has the form `test_<word>.rb`, then the
leftmost match of the `test_` pattern replaces everything from the start
of that segment, leaving a final segment of exactly ".rb". -/
theorem baseName_replaceTestUnderscore (s : Str) (h : matchHere (baseName s) = true) :
    baseName (replaceTestUnderscore s) = str ".rb" := by
  induction s with
  | nil => exact absurd h (by decide)
  | cons c t ih =>
    cases hm : matchHere (c :: t) with
    | true =>
      rw [replaceTestUnderscore_cons, if_pos hm]
      decide
    | false =>
      rw [replaceTestUnderscore_cons, if_neg (by rw [hm]; exact Bool.false_ne_true)]
      by_cases hs : containsChar (c :: t) '/' = true
      · rw [baseName_cons, if_pos hs] at h
        have hslash : containsChar (c :: replaceTestUnderscore t) '/' = true := by
          have hcc : containsChar (c :: t) '/' = (c = '/' || containsChar t '/') := rfl
          rw [hcc] at hs
          have hcc2 : containsChar (c :: replaceTestUnderscore t) '/' =
              (c = '/' || containsChar (replaceTestUnderscore t) '/') := rfl
          rw [hcc2]
          rcases Bool.or_eq_true_iff.mp hs with h1 | h2
          · rw [h1]; rfl
          · rw [replaceTestUnderscore_slash t h2, Bool.or_true]
        rw [baseName_cons, if_pos hslash]
        exact ih h
      · rw [baseName_cons, if_neg hs] at h
        rw [h] at hm
        exact absurd hm (by decide)

/-- The inner loop of `findAlternateTest` is the first existing target of
the source-path candidate row. -/
theorem testLoopSrcPaths_eq_find (fs : FS) (p : Project) (filename tp : Str)
    (sps : List Str) :
    testLoopSrcPaths fs p filename tp sps =
      (sps.map fun sp => goJoin p.Root (testCandidate fs p filename tp sp)).find?
        (fun t => fileExists fs t) := by
  induction sps with
  | nil => rfl
  | cons sp rest ih =>
    unfold testLoopSrcPaths
    cases hex : fileExists fs (goJoin p.Root (testCandidate fs p filename tp sp)) with
    | true =>
      simp only [hex, if_true, List.map_cons]
      rw [List.find?_cons_of_pos _ hex]
    | false =>
      simp only [hex, Bool.false_eq_true, if_false, List.map_cons]
      rw [List.find?_cons_of_neg _ (by simp [hex]), ih]

/-- The nested loop of `findAlternateTest` is the first existing target of
`allTestTargets` (test directories outer, source directories inner). -/
theorem testLoopTestPaths_eq_find (fs : FS) (p : Project) (filename : Str)
    (tps : List Str) :
    testLoopTestPaths fs p filename tps =
      (tps.flatMap fun tp =>
        (p.SrcPaths fs).map fun sp =>
          goJoin p.Root (testCandidate fs p filename tp sp)).find?
        (fun t => fileExists fs t) := by
  induction tps with
  | nil => rfl
  | cons tp rest ih =>
    unfold testLoopTestPaths
    rw [List.flatMap_cons, List.find?_append, testLoopSrcPaths_eq_find, ih]
    cases ((p.SrcPaths fs).map fun sp =>
        goJoin p.Root (testCandidate fs p filename tp sp)).find?
        (fun t => fileExists fs t) with
    | none => rfl
    | some t => rfl

/-- The innermost loop of `findAlternateSrc` is the first existing target
of the regex candidate row. -/
theorem srcLoopRegexes_eq_find (fs : FS) (p : Project) (filename sp tp : Str)
    (rs : List TestRegex) :
    srcLoopRegexes fs p filename sp tp rs =
      (rs.map fun r => goJoin p.Root (srcCandidate filename sp tp r)).find?
        (fun t => fileExists fs t) := by
  induction rs with
  | nil => rfl
  | cons r rest ih =>
    unfold srcLoopRegexes
    cases hex : fileExists fs (goJoin p.Root (srcCandidate filename sp tp r)) with
    | true =>
      simp only [hex, if_true, List.map_cons]
      rw [List.find?_cons_of_pos _ hex]
    | false =>
      simp only [hex, Bool.false_eq_true, if_false, List.map_cons]
      rw [List.find?_cons_of_neg _ (by simp [hex]), ih]

/-- The middle loop of `findAlternateSrc` flattens the (testPath, regex)
candidate block. -/
theorem srcLoopTestPaths_eq_find (fs : FS) (p : Project) (filename sp : Str)
    (tps : List Str) :
    srcLoopTestPaths fs p filename sp tps =
      (tps.flatMap fun tp =>
        (p.TestRegexes fs).map fun r =>
          goJoin p.Root (srcCandidate filename sp tp r)).find?
        (fun t => fileExists fs t) := by
  induction tps with
  | nil => rfl
  | cons tp rest ih =>
    unfold srcLoopTestPaths
    rw [List.flatMap_cons, List.find?_append, srcLoopRegexes_eq_find, ih]
    cases ((p.TestRegexes fs).map fun r =>
        goJoin p.Root (srcCandidate filename sp tp r)).find?
        (fun t => fileExists fs t) with
    | none => rfl
    | some t => rfl

/-- The full nested loop of `findAlternateSrc` is the first existing
target of `allSrcTargets` (source directories outer, test directories
middle, regexes inner). -/
theorem srcLoopSrcPaths_eq_find (fs : FS) (p : Project) (filename : Str)
    (sps : List Str) :
    srcLoopSrcPaths fs p filename sps =
      (sps.flatMap fun sp =>
        (p.TestPaths fs).flatMap fun tp =>
          (p.TestRegexes fs).map fun r =>
            goJoin p.Root (srcCandidate filename sp tp r)).find?
        (fun t => fileExists fs t) := by
  induction sps with
  | nil => rfl
  | cons sp rest ih =>
    unfold srcLoopSrcPaths
    rw [List.flatMap_cons, List.find?_append, srcLoopTestPaths_eq_find, ih]
    cases ((p.TestPaths fs).flatMap fun tp =>
        (p.TestRegexes fs).map fun r =>
          goJoin p.Root (srcCandidate filename sp tp r)).find?
        (fun t => fileExists fs t) with
    | none => rfl
    | some t => rfl

/-- When the controller special case applies and its candidate exists,
`findAlternateTest` returns it at once. -/
theorem findAlternateTest_special (fs : FS) (p : Project) (filename : Str)
    (h1 : IsController filename = true)
    (h2 : fileExists fs (goJoin p.Root (controllerSpecialCandidate filename)) = true) :
    findAlternateTest fs p filename = goJoin p.Root (controllerSpecialCandidate filename) := by
  unfold findAlternateTest
  rw [h1]
  simp [h2]

/-- When the controller special case does not apply, `findAlternateTest`
is the first existing target of `allTestTargets`, and the empty string
when none exists. -/
theorem findAlternateTest_general (fs : FS) (p : Project) (filename : Str)
    (h : IsController filename = false) :
    findAlternateTest fs p filename =
      (match (allTestTargets fs p filename).find? (fun t => fileExists fs t) with
       | some t => t
       | none => []) := by
  unfold findAlternateTest
  rw [h]
  simp only [Bool.false_eq_true, if_false]
  rw [testLoopTestPaths_eq_find]
  rfl

/-- When the request-spec special case applies and its candidate exists,
`findAlternateSrc` returns it at once. -/
theorem findAlternateSrc_special (fs : FS) (p : Project) (filename : Str)
    (h1 : IsRequestSpec filename = true)
    (h2 : fileExists fs (goJoin p.Root (requestSpecialCandidate filename)) = true) :
    findAlternateSrc fs p filename = goJoin p.Root (requestSpecialCandidate filename) := by
  unfold findAlternateSrc
  rw [h1]
  simp [h2]

/-- When the request-spec special case does not apply, `findAlternateSrc`
is the first existing target of `allSrcTargets`, and the empty string when
none exists. -/
theorem findAlternateSrc_general (fs : FS) (p : Project) (filename : Str)
    (h : IsRequestSpec filename = false) :
    findAlternateSrc fs p filename =
      (match (allSrcTargets fs p filename).find? (fun t => fileExists fs t) with
       | some t => t
       | none => []) := by
  unfold findAlternateSrc
  rw [h]
  simp only [Bool.false_eq_true, if_false]
  rw [srcLoopSrcPaths_eq_find]
  rfl

/-! Claim theorems. -/

/-- C1 counterexample: in an application-layout project with the
prefix/suffix convention where only the prefix-named test file
`test/models/test_user.rb` exists, `findAlternateTest` (via
`AlternateFile`) does not return it: it returns the empty string, because
the resolver only ever generates suffix-named (`_test.rb`) candidates. -/
theorem c1_counterexample :
    AlternateFile [str "r/app/models/user.rb", str "r/test/models/test_user.rb"]
        ⟨str "r"⟩ (str "app/models/user.rb") ≠ str "r/test/models/test_user.rb" ∧
    AlternateFile [str "r/app/models/user.rb", str "r/test/models/test_user.rb"]
        ⟨str "r"⟩ (str "app/models/user.rb") = [] := by
  decide

/-- C1 (amended): for `app/models/user.rb` under the application layout
with the prefix/suffix convention, only the suffix-named candidate
`test/models/user_test.rb` is generated: when both the suffix-named and
the prefix-named test files exist the suffix-named one is returned, and
when only the prefix-named one exists resolution returns the empty
string. -/
theorem c1_amended_theorem :
    AlternateFile
        [str "r/app/models/user.rb", str "r/test/models/user_test.rb",
         str "r/test/models/test_user.rb"]
        ⟨str "r"⟩ (str "app/models/user.rb") = str "r/test/models/user_test.rb" ∧
    AlternateFile [str "r/app/models/user.rb", str "r/test/models/test_user.rb"]
        ⟨str "r"⟩ (str "app/models/user.rb") = [] := by
  decide

/-- C2 counterexample: in a prefix/suffix-convention application project
holding both `app/controllers/foos_controller.rb` and
`spec/requests/foos_controller_spec.rb`, the source file resolves (through
the controller special case) to the request spec, but resolving that
returned file yields the empty string, not the original source: the
request-spec path is not classified as a test file under the `test/`
convention, and its test-direction candidates do not exist.  Toggling
twice does not return to the start even though both files exist. -/
theorem c2_counterexample :
    IsTestFile
        [str "r/app/controllers/foos_controller.rb",
         str "r/spec/requests/foos_controller_spec.rb"]
        ⟨str "r"⟩ (str "app/controllers/foos_controller.rb") = false ∧
    fileExists
        [str "r/app/controllers/foos_controller.rb",
         str "r/spec/requests/foos_controller_spec.rb"]
        (str "r/app/controllers/foos_controller.rb") = true ∧
    fileExists
        [str "r/app/controllers/foos_controller.rb",
         str "r/spec/requests/foos_controller_spec.rb"]
        (str "r/spec/requests/foos_controller_spec.rb") = true ∧
    AlternateFile
        [str "r/app/controllers/foos_controller.rb",
         str "r/spec/requests/foos_controller_spec.rb"]
        ⟨str "r"⟩ (str "app/controllers/foos_controller.rb") =
      str "r/spec/requests/foos_controller_spec.rb" ∧
    AlternateFile
        [str "r/app/controllers/foos_controller.rb",
         str "r/spec/requests/foos_controller_spec.rb"]
        ⟨str "r"⟩ (str "spec/requests/foos_controller_spec.rb") = [] := by
  decide

/-- C2 (amended): toggling twice returns to the start in the canonical
general-rule scenarios — `app/models/user.rb` with
`test/models/user_test.rb` under the prefix/suffix convention, and with
`spec/models/user_spec.rb` under the descriptive convention, when exactly
the relevant files exist — but not universally: it fails when the
controller special case fires in a prefix/suffix-convention project (see
the counterexample). -/
theorem c2_amended_theorem :
    AlternateFile [str "r/app/models/user.rb", str "r/test/models/user_test.rb"]
        ⟨str "r"⟩ (str "app/models/user.rb") = str "r/test/models/user_test.rb" ∧
    AlternateFile [str "r/app/models/user.rb", str "r/test/models/user_test.rb"]
        ⟨str "r"⟩ (str "test/models/user_test.rb") = str "r/app/models/user.rb" ∧
    AlternateFile
        [str "r/.rspec", str "r/app/models/user.rb", str "r/spec/models/user_spec.rb"]
        ⟨str "r"⟩ (str "app/models/user.rb") = str "r/spec/models/user_spec.rb" ∧
    AlternateFile
        [str "r/.rspec", str "r/app/models/user.rb", str "r/spec/models/user_spec.rb"]
        ⟨str "r"⟩ (str "spec/models/user_spec.rb") = str "r/app/models/user.rb" := by
  decide

/-- C3 counterexample: a spec-helper file nested two directory levels
below the root (`r/x/y/spec/spec_helper.rb`) is not found by `IsSpec`:
Go's glob gives `**` no recursive meaning, so the third probe only reaches
helpers exactly one directory level deep.  The second conjunct records
that a spec-helper file does exist under the tree. -/
theorem c3_counterexample :
    Project.IsSpec [str "r/x/y/spec/spec_helper.rb"] ⟨str "r"⟩ = false ∧
    hasSuffix (str "r/x/y/spec/spec_helper.rb") (str "/spec/spec_helper.rb") = true := by
  decide

/-- C4 counterexample: under the prefix/suffix convention the path
`app/models/contest_user.rb` is classified as a test file, although its
final segment neither starts with the prefix `test_` nor ends with the
suffix `_test.rb` (nor `_spec.rb`): the `test_[a-zA-Z0-9_]*\.rb$` pattern
may match starting in the middle of the final segment. -/
theorem c4_counterexample :
    IsTestFile [] ⟨str "r"⟩ (str "app/models/contest_user.rb") = true ∧
    (str "test_").isPrefixOf (baseName (str "app/models/contest_user.rb")) = false ∧
    hasSuffix (str "app/models/contest_user.rb") (str "_test.rb") = false ∧
    hasSuffix (str "app/models/contest_user.rb") (str "_spec.rb") = false := by
  decide

/-- C4 (amended): classification is a pure function of the matchers — a
path is a test file iff (descriptive convention) it ends in `_spec.rb`,
or (prefix/suffix convention) it ends in `_test.rb` or its final path
segment has a suffix of the form `test_<word>.rb`; the `test_` pattern is
confined to the final segment but may match starting mid-segment, not
only as a prefix of it.  Every path is classified as exactly one of test
file or source file (the classifier is a boolean). -/
theorem c4_amended_theorem (fs : FS) (p : Project) (filename : Str) :
    IsTestFile fs p filename =
      (if p.IsSpec fs then hasSuffix filename (str "_spec.rb")
       else hasSuffix filename (str "_test.rb") ||
         matchesTestUnderscore (baseName filename)) := by
  unfold IsTestFile Project.TestRegexes
  cases hsp : p.IsSpec fs with
  | true => simp [TestRegex.matchString]
  | false => simp [TestRegex.matchString, ← matchesTestUnderscore_baseName]

/-- C8: convention detection and resolution are deterministic in the
filesystem state: two calls against the same filesystem (the embedding's
only state — the Go code keeps no mutable state beyond the immutable
project root) return identical results. -/
theorem c8_theorem (fs fs' : FS) (p : Project) (filename : Str) (h : fs = fs') :
    Project.IsGem fs p = Project.IsGem fs' p ∧
    Project.IsSpec fs p = Project.IsSpec fs' p ∧
    AlternateFile fs p filename = AlternateFile fs' p filename := by
  subst h
  exact ⟨rfl, rfl, rfl⟩

/-- C8 witness: the determinism theorem applied to a concrete project. -/
theorem c8_witness :
    Project.IsGem [str "r/a.gemspec"] ⟨str "r"⟩ =
      Project.IsGem [str "r/a.gemspec"] ⟨str "r"⟩ ∧
    Project.IsSpec [str "r/a.gemspec"] ⟨str "r"⟩ =
      Project.IsSpec [str "r/a.gemspec"] ⟨str "r"⟩ ∧
    AlternateFile [str "r/a.gemspec"] ⟨str "r"⟩ (str "lib/user.rb") =
      AlternateFile [str "r/a.gemspec"] ⟨str "r"⟩ (str "lib/user.rb") :=
  c8_theorem [str "r/a.gemspec"] [str "r/a.gemspec"] ⟨str "r"⟩ (str "lib/user.rb") rfl

/-- C5: when the input lies under `app/controllers/`, ends with
`_controller.rb`, and the candidate obtained by the two special-case
substitutions exists, `findAlternateTest` returns that candidate
immediately — for every filesystem, so in particular also when a generic
`spec/controllers/...` candidate exists as well. -/
theorem c5_theorem (fs : FS) (root filename : Str)
    (h1 : containsSub filename (str "app/controllers/") = true)
    (h2 : hasSuffix filename (str "_controller.rb") = true)
    (h3 : fileExists fs (goJoin root (controllerSpecialCandidate filename)) = true) :
    findAlternateTest fs ⟨root⟩ filename =
      goJoin root (controllerSpecialCandidate filename) := by
  apply findAlternateTest_special
  · unfold IsController
    rw [h1, h2]
    rfl
  · exact h3

/-- C5 witness: `app/controllers/api/v1/foos_controller.rb` resolves to
`spec/requests/api/v1/foos_controller_spec.rb` although the generic
`spec/controllers/api/v1/foos_controller_spec.rb` also exists. -/
theorem c5_witness :
    findAlternateTest
        [str "r/.rspec", str "r/app/controllers/api/v1/foos_controller.rb",
         str "r/spec/requests/api/v1/foos_controller_spec.rb",
         str "r/spec/controllers/api/v1/foos_controller_spec.rb"]
        ⟨str "r"⟩ (str "app/controllers/api/v1/foos_controller.rb") =
      str "r/spec/requests/api/v1/foos_controller_spec.rb" := by
  have h := c5_theorem
    [str "r/.rspec", str "r/app/controllers/api/v1/foos_controller.rb",
     str "r/spec/requests/api/v1/foos_controller_spec.rb",
     str "r/spec/controllers/api/v1/foos_controller_spec.rb"]
    (str "r") (str "app/controllers/api/v1/foos_controller.rb")
    (by decide) (by decide) (by decide)
  rw [h]
  decide

/-- C6: outside the controller special case, `findAlternateTest` is the
first existing target of `allTestTargets` — the candidate list built with
`testDirectories` in the outer loop and `sourceDirectories` in the inner
loop — and when no candidate in the whole sequence exists it returns the
empty string (no error signalling). -/
theorem c6_theorem (fs : FS) (p : Project) (filename : Str)
    (h : IsController filename = false) :
    (findAlternateTest fs p filename =
      match (allTestTargets fs p filename).find? (fun t => fileExists fs t) with
      | some t => t
      | none => []) ∧
    ((∀ t ∈ allTestTargets fs p filename, fileExists fs t = false) →
      findAlternateTest fs p filename = []) := by
  refine ⟨findAlternateTest_general fs p filename h, ?_⟩
  intro hall
  rw [findAlternateTest_general fs p filename h]
  have hnone : (allTestTargets fs p filename).find? (fun t => fileExists fs t) = none := by
    rw [List.find?_eq_none]
    intro x hx
    simp [hall x hx]
  rw [hnone]

/-- C6 witness: the characterization applied to the canonical application
scenario, where the first existing candidate is
`test/models/user_test.rb`. -/
theorem c6_witness :
    findAlternateTest [str "r/app/models/user.rb", str "r/test/models/user_test.rb"]
        ⟨str "r"⟩ (str "app/models/user.rb") = str "r/test/models/user_test.rb" := by
  have h := (c6_theorem [str "r/app/models/user.rb", str "r/test/models/user_test.rb"]
      ⟨str "r"⟩ (str "app/models/user.rb") (by decide)).1
  rw [h]
  decide

/-- C10: the controller/request-spec special cases are independent of the
detected convention: `IsController` and `IsRequestSpec` are the literal
`app/controllers/` / `spec/requests/` / `_controller.rb` /
`_controller_spec.rb` checks on the filename alone, and for EVERY
filesystem (hence under either convention, gem or not) the special-case
candidate, built from those literal strings, is returned when it
exists. -/
theorem c10_theorem (fs : FS) (root filename : Str) :
    (IsController filename =
      (containsSub filename (str "app/controllers/") &&
       hasSuffix filename (str "_controller.rb"))) ∧
    (IsRequestSpec filename =
      (containsSub filename (str "spec/requests/") &&
       hasSuffix filename (str "_controller_spec.rb"))) ∧
    (IsController filename = true →
      fileExists fs (goJoin root (controllerSpecialCandidate filename)) = true →
      findAlternateTest fs ⟨root⟩ filename =
        goJoin root (controllerSpecialCandidate filename)) ∧
    (IsRequestSpec filename = true →
      fileExists fs (goJoin root (requestSpecialCandidate filename)) = true →
      findAlternateSrc fs ⟨root⟩ filename =
        goJoin root (requestSpecialCandidate filename)) := by
  refine ⟨rfl, rfl, ?_, ?_⟩
  · exact fun h1 h2 => findAlternateTest_special fs ⟨root⟩ filename h1 h2
  · exact fun h1 h2 => findAlternateSrc_special fs ⟨root⟩ filename h1 h2

/-- C10 witness: in a prefix/suffix-convention project (no descriptive
markers anywhere, second conjunct) the controller special case still
produces the spec-style `spec/requests/users_controller_spec.rb`. -/
theorem c10_witness :
    findAlternateTest
        [str "r/app/controllers/users_controller.rb",
         str "r/spec/requests/users_controller_spec.rb"]
        ⟨str "r"⟩ (str "app/controllers/users_controller.rb") =
      str "r/spec/requests/users_controller_spec.rb" ∧
    Project.IsSpec
        [str "r/app/controllers/users_controller.rb",
         str "r/spec/requests/users_controller_spec.rb"]
        ⟨str "r"⟩ = false := by
  constructor
  · have h := (c10_theorem
        [str "r/app/controllers/users_controller.rb",
         str "r/spec/requests/users_controller_spec.rb"]
        (str "r") (str "app/controllers/users_controller.rb")).2.2.1
        (by decide) (by decide)
    rw [h]
    decide
  · decide

/-- C7: when the source-directory entry is the empty string the candidate
is the test directory prefixed to the original path (first conjunct); in
a gem project with the descriptive convention, `my_gem.rb` resolves to
`spec/my_gem_spec.rb` when that file exists (and the earlier candidate
`my_gem_spec.rb` at the root, probed first by the (spec, lib) pair, does
not). -/
theorem c7_theorem (fs : FS)
    (hg : Project.IsGem fs ⟨str "r"⟩ = true)
    (hs : Project.IsSpec fs ⟨str "r"⟩ = true)
    (hex : fileExists fs (str "r/spec/my_gem_spec.rb") = true)
    (hnex : fileExists fs (str "r/my_gem_spec.rb") = false) :
    (∀ tp f : Str, testCandidate fs ⟨str "r"⟩ f tp [] =
      Project.Testify fs ⟨str "r"⟩ (goJoin tp f)) ∧
    findAlternateTest fs ⟨str "r"⟩ (str "my_gem.rb") = str "r/spec/my_gem_spec.rb" := by
  constructor
  · intro tp f
    unfold testCandidate
    rw [if_pos rfl]
  · rw [findAlternateTest_general fs ⟨str "r"⟩ (str "my_gem.rb") (by decide)]
    have hA : allTestTargets fs ⟨str "r"⟩ (str "my_gem.rb") =
        [str "r/my_gem_spec.rb", str "r/spec/my_gem_spec.rb",
         str "r/my_gem_spec.rb", str "r/spec/lib/my_gem_spec.rb"] := by
      unfold allTestTargets Project.TestPaths Project.TestAnchor Project.SrcPaths
        testCandidate Project.Testify Project.TestSuffix
      simp only [hs, hg]
      decide
    rw [hA]
    rw [List.find?_cons_of_neg _ (by simp [hnex]),
      List.find?_cons_of_pos _ (by simpa using hex)]

/-- C7 witness: the gem scenario with exactly the scenario's files. -/
theorem c7_witness :
    findAlternateTest
        [str "r/my_gem.gemspec", str "r/.rspec", str "r/my_gem.rb",
         str "r/spec/my_gem_spec.rb"]
        ⟨str "r"⟩ (str "my_gem.rb") = str "r/spec/my_gem_spec.rb" :=
  (c7_theorem
    [str "r/my_gem.gemspec", str "r/.rspec", str "r/my_gem.rb",
     str "r/spec/my_gem_spec.rb"]
    (by decide) (by decide) (by decide) (by decide)).2

/-- C9: the `test_` pattern's replacement substitutes the entire matched
tail with the bare extension: whenever the final segment has the form
`test_<word>.rb`, the replaced string's final segment is exactly ".rb"
(first conjunct; e.g. `app/test_user.rb` becomes `app/.rb`, second
conjunct); consequently, in a prefix/suffix-convention application
project, resolving `test/test_user.rb` can never return the natural
source `app/user.rb`, for any filesystem (third conjunct). -/
theorem c9_theorem :
    (∀ s : Str, matchHere (baseName s) = true →
      baseName (replaceTestUnderscore s) = str ".rb") ∧
    replaceTestUnderscore (str "app/test_user.rb") = str "app/.rb" ∧
    (∀ fs : FS, Project.IsGem fs ⟨str "r"⟩ = false →
      Project.IsSpec fs ⟨str "r"⟩ = false →
      findAlternateSrc fs ⟨str "r"⟩ (str "test/test_user.rb") ≠ str "r/app/user.rb") := by
  refine ⟨baseName_replaceTestUnderscore, by decide, ?_⟩
  intro fs hg hs heq
  rw [findAlternateSrc_general fs ⟨str "r"⟩ (str "test/test_user.rb") (by decide)] at heq
  have hA : allSrcTargets fs ⟨str "r"⟩ (str "test/test_user.rb") =
      [str "r/app/test_user.rb", str "r/app/.rb",
       str "r/test/test_user.rb", str "r/test/.rb",
       str "r/lib/test_user.rb", str "r/lib/.rb",
       str "r/test/test_user.rb", str "r/test/.rb"] := by
    unfold allSrcTargets Project.SrcPaths Project.TestPaths Project.TestAnchor
      Project.TestRegexes srcCandidate
    simp only [hg, hs]
    decide
  rw [hA] at heq
  cases hF : ([str "r/app/test_user.rb", str "r/app/.rb",
      str "r/test/test_user.rb", str "r/test/.rb",
      str "r/lib/test_user.rb", str "r/lib/.rb",
      str "r/test/test_user.rb", str "r/test/.rb"]).find?
      (fun t => fileExists fs t) with
  | none =>
    rw [hF] at heq
    exact absurd heq (by decide)
  | some t =>
    rw [hF] at heq
    have heq2 : t = str "r/app/user.rb" := heq
    have hmem := List.mem_of_find?_eq_some hF
    rw [heq2] at hmem
    exact absurd hmem (by decide)

/-- C9 witness: the two quantified conjuncts at concrete inputs. -/
theorem c9_witness :
    baseName (replaceTestUnderscore (str "test/test_user.rb")) = str ".rb" ∧
    findAlternateSrc [str "r/test/test_user.rb"] ⟨str "r"⟩ (str "test/test_user.rb") ≠
      str "r/app/user.rb" := by
  constructor
  · exact c9_theorem.1 (str "test/test_user.rb") (by decide)
  · exact c9_theorem.2.2 [str "r/test/test_user.rb"] (by decide) (by decide)

/-- C3 (amended): `IsSpec` returns true iff the top-level
`spec/spec_helper.rb` exists, or the `.rspec` dotfile exists, or a
spec-helper exists exactly ONE directory level below the root
(`root/<d>/spec/spec_helper.rb` with `<d>` a single nonempty path
segment) — not at arbitrary nesting depth, since Go's glob gives `**` no
recursive meaning. -/
theorem c3_amended_theorem (fs : FS) (p : Project) (h : p.Root ≠ []) :
    Project.IsSpec fs p = true ↔
      (fileExists fs (goJoin p.Root (str "spec/spec_helper.rb")) = true ∨
       fileExists fs (goJoin p.Root (str ".rspec")) = true ∨
       ∃ d : Str, d ≠ [] ∧ containsChar d '/' = false ∧
         fileExists fs (p.Root ++ '/' :: (d ++ str "/spec/spec_helper.rb")) = true) := by
  unfold Project.IsSpec
  simp only [Bool.or_eq_true]
  constructor
  · rintro ((h1 | h2) | h3)
    · exact Or.inl h1
    · exact Or.inr (Or.inl h2)
    · refine Or.inr (Or.inr ?_)
      rcases List.any_eq_true.mp h3 with ⟨f, hf, hpred⟩
      unfold relToRoot at hpred
      rw [if_neg h] at hpred
      cases hpre : (p.Root ++ ['/']).isPrefixOf f with
      | false =>
        rw [if_neg (by simp [hpre])] at hpred
        have hbad : (false : Bool) = true := hpred
        exact absurd hbad (by decide)
      | true =>
        rw [if_pos hpre] at hpred
        have hpred2 : (hasSuffix (f.drop (p.Root.length + 1)) (str "/spec/spec_helper.rb") &&
            (!((f.drop (p.Root.length + 1)).take
                ((f.drop (p.Root.length + 1)).length -
                  (str "/spec/spec_helper.rb").length)).isEmpty &&
             !containsChar ((f.drop (p.Root.length + 1)).take
                ((f.drop (p.Root.length + 1)).length -
                  (str "/spec/spec_helper.rb").length)) '/')) = true := hpred
        rcases Bool.and_eq_true_iff.mp hpred2 with ⟨hsfx, hrest2⟩
        rcases Bool.and_eq_true_iff.mp hrest2 with ⟨hne, hnosl⟩
        rcases List.isPrefixOf_iff_prefix.mp hpre with ⟨tail, htail⟩
        have hdrop : f.drop (p.Root.length + 1) = tail := by
          rw [← htail, show p.Root.length + 1 = (p.Root ++ ['/']).length by simp]
          exact List.drop_left _ _
        rw [hdrop] at hsfx hne hnosl
        rcases List.isSuffixOf_iff_suffix.mp hsfx with ⟨pre, hpre2⟩
        have htake : tail.take (tail.length - (str "/spec/spec_helper.rb").length) = pre := by
          rw [← hpre2, List.length_append,
            Nat.add_sub_cancel, List.take_left]
        rw [htake] at hne hnosl
        refine ⟨pre, ?_, ?_, ?_⟩
        · intro hnil
          rw [hnil] at hne
          exact absurd hne (by decide)
        · cases hcc : containsChar pre '/' with
          | false => rfl
          | true => rw [hcc] at hnosl; exact absurd hnosl (by decide)
        · rw [fileExists_iff_mem]
          have hfeq : p.Root ++ '/' :: (pre ++ str "/spec/spec_helper.rb") = f := by
            rw [← htail, ← hpre2, List.append_cons, List.append_assoc]
          rw [hfeq]
          exact hf
  · rintro (h1 | h2 | ⟨d, hd1, hd2, hd3⟩)
    · exact Or.inl (Or.inl h1)
    · exact Or.inl (Or.inr h2)
    · refine Or.inr ?_
      rw [List.any_eq_true]
      refine ⟨p.Root ++ '/' :: (d ++ str "/spec/spec_helper.rb"),
        (fileExists_iff_mem fs _).mp hd3, ?_⟩
      have hsplit : p.Root ++ '/' :: (d ++ str "/spec/spec_helper.rb") =
          (p.Root ++ ['/']) ++ (d ++ str "/spec/spec_helper.rb") := by
        rw [List.append_cons, List.append_assoc]
      have hpre : (p.Root ++ ['/']).isPrefixOf
          (p.Root ++ '/' :: (d ++ str "/spec/spec_helper.rb")) = true := by
        rw [hsplit]
        exact List.isPrefixOf_iff_prefix.mpr ⟨_, rfl⟩
      have hdrop : (p.Root ++ '/' :: (d ++ str "/spec/spec_helper.rb")).drop
          (p.Root.length + 1) = d ++ str "/spec/spec_helper.rb" := by
        rw [hsplit, show p.Root.length + 1 = (p.Root ++ ['/']).length by simp]
        exact List.drop_left _ _
      unfold relToRoot
      rw [if_neg h, if_pos hpre, hdrop]
      show (hasSuffix (d ++ str "/spec/spec_helper.rb") (str "/spec/spec_helper.rb") &&
        (!((d ++ str "/spec/spec_helper.rb").take
            ((d ++ str "/spec/spec_helper.rb").length -
              (str "/spec/spec_helper.rb").length)).isEmpty &&
         !containsChar ((d ++ str "/spec/spec_helper.rb").take
            ((d ++ str "/spec/spec_helper.rb").length -
              (str "/spec/spec_helper.rb").length)) '/')) = true
      rw [List.length_append, Nat.add_sub_cancel, List.take_left]
      have h1 : hasSuffix (d ++ str "/spec/spec_helper.rb") (str "/spec/spec_helper.rb") = true :=
        List.isSuffixOf_iff_suffix.mpr ⟨d, rfl⟩
      have h2 : d.isEmpty = false := by
        cases d with
        | nil => exact absurd rfl hd1
        | cons c t => rfl
      rw [h1, h2, hd2]
      rfl

/-- C3 witness: a spec-helper exactly one level below the root is
detected. -/
theorem c3_amended_witness :
    Project.IsSpec [str "r/eng/spec/spec_helper.rb"] ⟨str "r"⟩ = true :=
  (c3_amended_theorem [str "r/eng/spec/spec_helper.rb"] ⟨str "r"⟩ (by decide)).mpr
    (Or.inr (Or.inr ⟨str "eng", by decide, by decide, by decide⟩))

end ZedToggle
